import Mathlib

/-!
Shallow embedding of the query composition, relevance ranking, facet
resolution and CSV export logic of the disease-record backend
(src/controllers/diseaseController.js), together with theorems checking
the natural-language specification against it.

JavaScript strings are modelled by Lean `String`, absent (`undefined`)
query parameters and optional record fields by `Option String`, and the
MongoDB query object produced by the controller by an explicit
`Predicate` AST.  Case-insensitive regex matching of a sanitized
(metacharacter-escaped) pattern is modelled by case-insensitive literal
substring containment; the `escapeRegex`/`parseLiteral` development
below justifies that identification.
-/

namespace BackendDB

/-- ASCII whitespace, modelling the characters removed by
JavaScript `String.prototype.trim` on the inputs this backend sees. -/
def isWS (c : Char) : Bool :=
  c = ' ' || c = '\t' || c = '\n' || c = '\r'

/-- Drop leading whitespace characters. -/
def trimLeftChars (l : List Char) : List Char := l.dropWhile isWS

/-- Drop trailing whitespace characters. -/
def trimRightChars (l : List Char) : List Char :=
  (trimLeftChars l.reverse).reverse

/-- Model of JavaScript `str.trim()`: drop whitespace at both ends. -/
def trimChars (l : List Char) : List Char := trimRightChars (trimLeftChars l)

/-- Model of JavaScript `str.trim()` on `String`. -/
def trimStr (s : String) : String := ⟨trimChars s.data⟩

theorem trimLeftChars_idem (l : List Char) :
    trimLeftChars (trimLeftChars l) = trimLeftChars l := by
  induction l with
  | nil => rfl
  | cons c t ih =>
    by_cases h : isWS c
    · simpa [trimLeftChars, List.dropWhile_cons, h] using ih
    · simp [trimLeftChars, List.dropWhile_cons, h]

theorem trimLeftChars_head_not_ws {l : List Char} {c : Char} {t : List Char}
    (h : trimLeftChars l = c :: t) : isWS c = false := by
  induction l with
  | nil => simp [trimLeftChars] at h
  | cons d r ih =>
    by_cases hd : isWS d
    · exact ih (by simpa [trimLeftChars, List.dropWhile_cons, hd] using h)
    · have : d :: r = c :: t := by
        simpa [trimLeftChars, List.dropWhile_cons, hd] using h
      cases this
      simpa using hd

theorem trimRightChars_idem (l : List Char) :
    trimRightChars (trimRightChars l) = trimRightChars l := by
  simp [trimRightChars, List.reverse_reverse, trimLeftChars_idem]

theorem trimRightChars_cons_of_not_ws {c : Char} (hc : isWS c = false)
    (t : List Char) : ∃ t', trimRightChars (c :: t) = c :: t' := by
  have hdrop : trimLeftChars (t.reverse ++ [c]) =
      trimLeftChars t.reverse ++ [c] ∨ trimLeftChars (t.reverse ++ [c]) = [c] := by
    unfold trimLeftChars
    rw [List.dropWhile_append]
    by_cases h : (t.reverse.dropWhile isWS).isEmpty
    · right; simp [h, List.dropWhile_cons, hc]
    · left; simp [h]
  have hrc : trimRightChars (c :: t) = (trimLeftChars (t.reverse ++ [c])).reverse := by
    simp [trimRightChars, List.reverse_cons]
  rcases hdrop with h | h
  · exact ⟨(trimLeftChars t.reverse).reverse, by simp [hrc, h]⟩
  · exact ⟨[], by simp [hrc, h]⟩

theorem trimChars_idem (l : List Char) : trimChars (trimChars l) = trimChars l := by
  unfold trimChars
  rcases ha : trimLeftChars l with _ | ⟨c, t⟩
  · simp [trimRightChars, trimLeftChars]
  · have hc : isWS c = false := trimLeftChars_head_not_ws ha
    obtain ⟨t', ht'⟩ := trimRightChars_cons_of_not_ws hc t
    rw [ht']
    have h1 : trimLeftChars (c :: t') = c :: t' := by
      simp [trimLeftChars, List.dropWhile_cons, hc]
    rw [h1, ← ht', trimRightChars_idem]

theorem trimStr_idem (s : String) : trimStr (trimStr s) = trimStr s := by
  simp [trimStr, trimChars_idem]

/-- The regex metacharacters escaped by the controller's sanitizer
`replace(/[.*+?^$\x7b\x7d()|[\]\\]/g, '\\$&')`. -/
def isMeta (c : Char) : Bool :=
  c = '.' || c = '*' || c = '+' || c = '?' || c = '^' || c = '$' ||
  c = Char.ofNat 123 || c = Char.ofNat 125 ||
  c = '(' || c = ')' || c = '|' || c = '[' || c = ']' || c = '\\'

/-- One character of sanitizer output: metacharacters get a preceding
backslash, all other characters pass through. -/
def escChar (c : Char) : List Char :=
  if isMeta c then ['\\', c] else [c]

/-- The sanitizer (`Sanitizer.escape`): escape every regex
metacharacter in the input with a preceding backslash. -/
def escapeRegex (s : String) : String := ⟨s.data.flatMap escChar⟩

/-- Interpret a regex fragment as a literal string: a backslash escapes
the following character; an unescaped metacharacter means the fragment
is not a pure literal (`none`). -/
def parseLiteral : List Char → Option (List Char)
  | [] => some []
  | c :: rest =>
    if c = '\\' then
      match rest with
      | [] => none
      | d :: rest2 => (parseLiteral rest2).map (d :: ·)
    else if isMeta c then none
    else (parseLiteral rest).map (c :: ·)

theorem parseLiteral_escape (l : List Char) :
    parseLiteral (l.flatMap escChar) = some l := by
  induction l with
  | nil => rfl
  | cons c t ih =>
    by_cases h : isMeta c
    · simp [escChar, h, parseLiteral, ih]
    · have hc : ¬ c = '\\' := by
        intro hcc; subst hcc; simp [isMeta] at h
      have hcons : (c :: t).flatMap escChar = c :: t.flatMap escChar := by
        simp [escChar, h]
      rw [hcons, parseLiteral.eq_def]
      simp [hc, h, ih]

/-- Contiguous-sublist test on character lists. -/
def containsSub (pat : List Char) : List Char → Bool
  | [] => pat.isEmpty
  | c :: t => pat.isPrefixOf (c :: t) || containsSub pat t

/-- ASCII lowercasing of one character, modelling the `'i'` regex flag
on the data this backend stores. -/
def lowerChar (c : Char) : Char :=
  if 'A' ≤ c && c ≤ 'Z' then Char.ofNat (c.toNat + 32) else c

/-- ASCII lowercasing of a string. -/
def lowerStr (s : String) : String := ⟨s.data.map lowerChar⟩

/-- Case-insensitive substring containment: the semantics of testing a
string against the case-insensitive regex built from an
escaped (literal) pattern. -/
def containsCI (hay pat : String) : Bool :=
  containsSub (lowerStr pat).data (lowerStr hay).data

/-- Matching a regex fragment case-insensitively against a string,
defined for literal (fully escaped) fragments: the fragment denotes the
literal string obtained by undoing the escapes. -/
def regexMatchesCI (pattern hay : String) : Bool :=
  match parseLiteral pattern.data with
  | some lit => containsCI hay ⟨lit⟩
  | none => false

theorem containsSub_nil (l : List Char) : containsSub [] l = true := by
  cases l <;> simp [containsSub, List.isPrefixOf]

/-- JavaScript truthiness of a possibly-absent string parameter:
`undefined` and the empty string are falsy. -/
def truthy : Option String → Bool
  | none => false
  | some s => s ≠ ""

/-- The `search && search.trim()` guard: value present, non-empty, and
non-empty after trimming. -/
def truthyTrim (o : Option String) : Bool :=
  match o with
  | none => false
  | some s => s ≠ "" && trimStr s ≠ ""

/-- The MongoDB query object built by the controller, as an AST.
`regexMatch f p` is `\x7b f: new RegExp(p, 'i') \x7d`; `anyOf` is `$or`;
`allOf` is `$and`; `matchAll` is the empty query `\x7b\x7d`. -/
inductive Predicate where
  | matchAll
  | regexMatch (field : String) (pattern : String)
  | anyOf (clauses : List Predicate)
  | allOf (clauses : List Predicate)

/-- The argument of `buildCombinedQuery`: the destructured
`search, field, disease, autoantibody, autoantigen, epitope`
request parameters, each possibly absent. -/
structure FilterSet where
  search : Option String
  field : Option String
  disease : Option String
  autoantibody : Option String
  autoantigen : Option String
  epitope : Option String
  deriving DecidableEq

/-- An empty filter set (all parameters absent). -/
def FilterSet.none : FilterSet := ⟨Option.none, Option.none, Option.none, Option.none, Option.none, Option.none⟩

/-- The sanitized case-insensitive regex clause the controller builds
from a raw parameter value: `new RegExp(escape(v.trim()), 'i')` on the
named field. -/
def regexClause (field : String) (v : String) : Predicate :=
  .regexMatch field (escapeRegex (trimStr v))

/-- The names of the five searchable fields, in the order the
controller lists them. -/
def searchableFields : List String :=
  ["disease", "autoantibody", "autoantigen", "epitope", "uniprotId"]

/-- `searchConditions` of `buildCombinedQuery`: the free-text clause.
With `field === 'all'` it is the disjunction over the five fields; with
a specific valid field a single clause; otherwise (invalid field, or
blank search) nothing is pushed. -/
def searchConditions (fs : FilterSet) : List Predicate :=
  match fs.search with
  | Option.none => []
  | some s =>
    if s ≠ "" && trimStr s ≠ "" then
      if fs.field = some "all" then
        [.anyOf (searchableFields.map (fun f => regexClause f s))]
      else
        match fs.field with
        | some f => if f ∈ searchableFields then [regexClause f s] else []
        | Option.none => []
    else []

/-- `filterConditions` of `buildCombinedQuery`: one independent clause
per present-and-non-blank structured filter, in source order. -/
def filterConditions (fs : FilterSet) : List Predicate :=
  (if truthyTrim fs.disease then [regexClause "disease" (fs.disease.getD "")] else []) ++
  (if truthyTrim fs.autoantibody then [regexClause "autoantibody" (fs.autoantibody.getD "")] else []) ++
  (if truthyTrim fs.autoantigen then [regexClause "autoantigen" (fs.autoantigen.getD "")] else []) ++
  (if truthyTrim fs.epitope then [regexClause "epitope" (fs.epitope.getD "")] else [])

/-- `allConditions = [...searchConditions, ...filterConditions]`. -/
def allConditions (fs : FilterSet) : List Predicate :=
  searchConditions fs ++ filterConditions fs

/-- `buildCombinedQuery`: combine the free-text clause and the
structured filter clauses by count — zero clauses gives the empty
query, one clause is returned verbatim, two or more are wrapped in
`$and`. -/
def buildCombinedQuery (fs : FilterSet) : Predicate :=
  match allConditions fs with
  | [] => .matchAll
  | [c] => c
  | cs => .allOf cs

/-- A stored disease record, restricted to the fields the search logic
reads.  `epitope` and `uniprotId` may be absent (the schema variants
disagree; the aggregation pipeline guards both with `$ifNull`). -/
structure Record where
  disease : String
  autoantibody : String
  autoantigen : String
  epitope : Option String
  uniprotId : Option String
  deriving DecidableEq

/-- MongoDB regex match of the sanitized term against a possibly-absent
field, as used in the `$match` stage: a missing field never matches. -/
def optFieldMatches (o : Option String) (term : String) : Bool :=
  match o with
  | none => false
  | some v => containsCI v term

/-- The `$match` stage of the `advancedSearch` pipeline: the
disjunction of the five fields matching the sanitized term. -/
def candidateMatch (term : String) (r : Record) : Bool :=
  containsCI r.disease term || containsCI r.autoantibody term ||
  containsCI r.autoantigen term || optFieldMatches r.epitope term ||
  optFieldMatches r.uniprotId term

/-- The `relevanceScore` computed by the `$addFields` stage: a weighted
sum of independent matches, with `$ifNull` treating an absent
`epitope`/`uniprotId` as the empty string. -/
def relevanceScore (term : String) (r : Record) : Nat :=
  (if containsCI r.disease term then 10 else 0) +
  (if containsCI r.autoantibody term then 8 else 0) +
  (if containsCI r.autoantigen term then 6 else 0) +
  (if containsCI (r.epitope.getD "") term then 4 else 0) +
  (if containsCI (r.uniprotId.getD "") term then 2 else 0)

/-- The `$sort: \x7b relevanceScore: -1, disease: 1 \x7d` order:
higher score first, ties by ascending disease name. -/
def rankRel (a b : Record × Nat) : Prop :=
  b.2 < a.2 ∨ (a.2 = b.2 ∧ a.1.disease ≤ b.1.disease)

instance : DecidableRel rankRel := fun a b => by
  unfold rankRel; infer_instance

instance : IsTotal (Record × Nat) rankRel :=
  ⟨fun a b => by
    unfold rankRel
    rcases Nat.lt_trichotomy a.2 b.2 with h | h | h
    · exact Or.inr (Or.inl h)
    · rcases le_total a.1.disease b.1.disease with hd | hd
      · exact Or.inl (Or.inr ⟨h, hd⟩)
      · exact Or.inr (Or.inr ⟨h.symm, hd⟩)
    · exact Or.inl (Or.inl h)⟩

instance : IsTrans (Record × Nat) rankRel :=
  ⟨fun a b c hab hbc => by
    unfold rankRel at *
    rcases hab with h1 | ⟨h1, h1'⟩ <;> rcases hbc with h2 | ⟨h2, h2'⟩
    · exact Or.inl (by omega)
    · exact Or.inl (by omega)
    · exact Or.inl (by omega)
    · exact Or.inr ⟨by omega, le_trans h1' h2'⟩⟩

/-- The result-size limit of `advancedSearch`:
`Math.min(parseInt(limit), 100)` with the destructuring default of 50
for an absent parameter.  There is no lower clamp in the source. -/
def effectiveLimit (limit : Option Int) : Int :=
  min (limit.getD 50) 100

/-- The `advancedSearch` aggregation pipeline over an explicit record
list: filter to candidates, pair each with its relevance score, sort by
score descending then disease ascending, and truncate to the effective
limit. -/
def advancedSearchPipeline (term : String) (records : List Record)
    (limit : Option Int) : List (Record × Nat) :=
  (List.insertionSort rankRel
    ((records.filter (candidateMatch term)).map
      (fun r => (r, relevanceScore term r)))).take (effectiveLimit limit).toNat

/-- The validation error message of `advancedSearch`. -/
def advErrMsg : String := "Search term must be at least 2 characters long"

/-- The error MongoDB raises when an aggregation pipeline carries a
non-positive `$limit` value. -/
def limitErrMsg : String := "the limit must be positive"

/-- The `$limit` stage as the storage layer executes it: a
non-positive limit value is rejected with an error (surfaced by the
controller as a failed request); a positive one truncates the
sequence. -/
def limitStage (n : Int) (l : List (Record × Nat)) :
    Except String (List (Record × Nat)) :=
  if n ≤ 0 then .error limitErrMsg else .ok (l.take n.toNat)

/-- `advancedSearch` including the storage layer's handling of the
`$limit` stage: validate the term, run the match/score/sort stages,
then apply `$limit` — whose rejection of the non-positive value
produced by a requested limit of 0 or less surfaces as an error, not as
a result list. -/
def advancedSearchAgg (q : Option String) (limit : Option Int)
    (records : List Record) : Except String (List (Record × Nat)) :=
  match q with
  | none => .error advErrMsg
  | some s =>
    if s = "" || (trimStr s).length < 2 then .error advErrMsg
    else
      limitStage (effectiveLimit limit)
        (List.insertionSort rankRel
          ((records.filter (candidateMatch (trimStr s))).map
            (fun r => (r, relevanceScore (trimStr s) r))))

/-- `advancedSearch` as a function of its query parameters: validate
the search term (`!searchTerm || searchTerm.trim().length < 2`), then
run the pipeline on the trimmed term. -/
def advancedSearchRun (q : Option String) (limit : Option Int)
    (records : List Record) : Except String (List (Record × Nat)) :=
  match q with
  | none => .error advErrMsg
  | some s =>
    if s = "" || (trimStr s).length < 2 then .error advErrMsg
    else .ok (advancedSearchPipeline (trimStr s) records limit)

/-- The validation error message of `searchEntries`. -/
def searchErrMsg : String := "Search term is required"

/-- `searchEntries` up to the storage call: validate that a search term
is present (`!searchTerm || searchTerm.trim().length < 1`), then return
the query that would be executed, built by `buildCombinedQuery` from
the term and the `field` parameter (defaulted to `'all'`); no
structured filters are passed. -/
def searchEntriesModel (q : Option String) (field : Option String) :
    Except String Predicate :=
  match q with
  | none => .error searchErrMsg
  | some s =>
    if s = "" || (trimStr s).length < 1 then .error searchErrMsg
    else .ok (buildCombinedQuery
      { search := some s, field := some (field.getD "all"),
        disease := none, autoantibody := none,
        autoantigen := none, epitope := none })

/-- Lexicographic comparison of character lists by character code. -/
def lexLEb : List Char → List Char → Bool
  | [], _ => true
  | _ :: _, [] => false
  | a :: as, b :: bs =>
    if a.toNat < b.toNat then true
    else if b.toNat < a.toNat then false
    else lexLEb as bs

theorem lexLEb_total : ∀ x y : List Char, lexLEb x y = true ∨ lexLEb y x = true := by
  intro x
  induction x with
  | nil => intro y; exact Or.inl rfl
  | cons a as ih =>
    intro y
    cases y with
    | nil => exact Or.inr rfl
    | cons b bs =>
      rcases Nat.lt_trichotomy a.toNat b.toNat with h | h | h
      · left; simp [lexLEb, h]
      · rcases ih bs with h2 | h2
        · left; simp [lexLEb, h, h2]
        · right; simp [lexLEb, h.symm, h2]
      · right; simp [lexLEb, h]

theorem lexLEb_trans : ∀ x y z : List Char,
    lexLEb x y = true → lexLEb y z = true → lexLEb x z = true := by
  intro x
  induction x with
  | nil => intro y z _ _; rfl
  | cons a as ih =>
    intro y z h1 h2
    cases y with
    | nil => simp [lexLEb] at h1
    | cons b bs =>
      cases z with
      | nil => simp [lexLEb] at h2
      | cons c cs =>
        by_cases hab : a.toNat < b.toNat
        · by_cases hbc : b.toNat < c.toNat
          · simp [lexLEb, lt_trans hab hbc]
          · by_cases hcb : c.toNat < b.toNat
            · simp [lexLEb, hbc, hcb] at h2
            · have hac : a.toNat < c.toNat := by omega
              simp [lexLEb, hac]
        · by_cases hba : b.toNat < a.toNat
          · simp [lexLEb, hab, hba] at h1
          · by_cases hbc : b.toNat < c.toNat
            · have hac : a.toNat < c.toNat := by omega
              simp [lexLEb, hac]
            · by_cases hcb : c.toNat < b.toNat
              · simp [lexLEb, hbc, hcb] at h2
              · have h1' : lexLEb as bs = true := by
                  simpa [lexLEb, hab, hba] using h1
                have h2' : lexLEb bs cs = true := by
                  simpa [lexLEb, hbc, hcb] using h2
                have hac : ¬ a.toNat < c.toNat := by omega
                have hca : ¬ c.toNat < a.toNat := by omega
                simp [lexLEb, hac, hca, ih bs cs h1' h2']

/-- The comparator `a.localeCompare(b, undefined, \x7b sensitivity: 'base' \x7d)`
used to sort facet values, modelled for ASCII data: case-insensitive
lexicographic order by character code. -/
def baseRel (a b : String) : Prop :=
  lexLEb (lowerStr a).data (lowerStr b).data = true

instance : DecidableRel baseRel := fun a b => by
  unfold baseRel; infer_instance

instance : IsTotal String baseRel :=
  ⟨fun a b => lexLEb_total (lowerStr a).data (lowerStr b).data⟩

instance : IsTrans String baseRel :=
  ⟨fun _ _ _ h1 h2 => lexLEb_trans _ _ _ h1 h2⟩

/-- The post-processing both facet endpoints apply to the raw distinct
values: keep truthy values that are non-blank after trimming, trim
each, and sort with the base-sensitivity comparator. -/
def facetPostProcess (values : List String) : List String :=
  List.insertionSort baseRel
    ((values.filter (fun v => v ≠ "" && trimStr v ≠ "")).map trimStr)

/-- A full facet enumeration over the multiset of raw stored values of
the target field: `distinct` de-duplicates the raw values, then the
post-processing chain runs. -/
def facetEnumerate (rawValues : List String) : List String :=
  facetPostProcess rawValues.dedup

/-- The outcome of `getFilteredUniqueValues` before the storage call. -/
inductive FacetOutcome where
  | invalidField
  | emptyShortcut
  | enumerate (filterQuery : List (String × String))

/-- The filter-query construction of `getFilteredUniqueValues`:
dependency-ordered constraints keyed on JavaScript truthiness of the
RAW parameter (note: no `.trim()` in the truthiness test), plus the
guard returning an empty result for an unconstrained `epitope`
request. -/
def getFilteredUniqueValuesModel (field : String)
    (disease autoantibody autoantigen : Option String) : FacetOutcome :=
  if field ∉ ["disease", "autoantibody", "autoantigen", "epitope"] then
    .invalidField
  else if field = "autoantibody" then
    .enumerate (if truthy disease then [("disease", disease.getD "")] else [])
  else if field = "autoantigen" then
    .enumerate
      ((if truthy disease then [("disease", disease.getD "")] else []) ++
       (if truthy autoantibody then [("autoantibody", autoantibody.getD "")] else []))
  else if field = "epitope" then
    if !truthy autoantigen && !truthy disease && !truthy autoantibody then
      .emptyShortcut
    else
      .enumerate
        ((if truthy autoantigen then [("autoantigen", autoantigen.getD "")] else []) ++
         (if truthy disease then [("disease", disease.getD "")] else []) ++
         (if truthy autoantibody then [("autoantibody", autoantibody.getD "")] else []))
  else
    .enumerate []

/-- The value a constraint on a named field reads from a record (the
three constrainable fields are all required strings). -/
def constraintFieldValue (r : Record) (field : String) : String :=
  if field = "disease" then r.disease
  else if field = "autoantibody" then r.autoantibody
  else if field = "autoantigen" then r.autoantigen
  else ""

/-- Whether a record satisfies one filter-query constraint: the
case-insensitive regex built from the escaped trimmed value, i.e.
case-insensitive containment of the trimmed value. -/
def constraintMatches (r : Record) (c : String × String) : Bool :=
  containsCI (constraintFieldValue r c.1) (trimStr c.2)

/-- The characters that force CSV quoting: comma, double quote,
newline. -/
def csvSpecial (c : Char) : Bool := c = ',' || c = '"' || c = '\n'

/-- The quoting test of `escapeCSV`:
`includes(',') || includes('"') || includes('\n')`. -/
def needsQuoting (s : String) : Bool :=
  s.data.any (fun c => c = ',') || s.data.any (fun c => c = '"') ||
  s.data.any (fun c => c = '\n')

/-- `replace(/"/g, '""')`: double every double quote. -/
def doubleQuotes (l : List Char) : List Char :=
  l.flatMap (fun c => if c = '"' then ['"', '"'] else [c])

/-- `escapeCSV`: the empty (falsy) string stays empty; a field
containing a comma, quote or newline is wrapped in double quotes with
internal quotes doubled; anything else passes through. -/
def escapeCSV (s : String) : String :=
  if s = "" then ""
  else if needsQuoting s then ⟨'"' :: (doubleQuotes s.data ++ ['"'])⟩
  else s

/-- A decimal digit character. -/
def digitChar10 : Nat → Char
  | 0 => '0'
  | 1 => '1'
  | 2 => '2'
  | 3 => '3'
  | 4 => '4'
  | 5 => '5'
  | 6 => '6'
  | 7 => '7'
  | 8 => '8'
  | _ => '9'

/-- Fixed-width zero-padded decimal rendering (most significant digit
first), as `toISOString` renders year, month and day. -/
def padNatChars (width n : Nat) : List Char :=
  (List.range width).reverse.map (fun i => digitChar10 (n / 10 ^ i % 10))

/-- A calendar date at day granularity — the part of a timestamp that
survives `toISOString().split('T')[0]`. -/
structure Date where
  year : Nat
  month : Nat
  day : Nat
  deriving DecidableEq

/-- `new Date(x).toISOString().split('T')[0]`: `YYYY-MM-DD`. -/
def renderDate (d : Date) : String :=
  ⟨padNatChars 4 d.year ++ '-' :: (padNatChars 2 d.month ++ '-' :: padNatChars 2 d.day)⟩

/-- A date cell: empty for an absent timestamp. -/
def renderDateCell (o : Option Date) : String :=
  match o with
  | none => ""
  | some d => renderDate d

/-- A record as seen by the CSV exporter (string fields already
defaulted with `|| ''`, timestamps at day granularity). -/
structure ExportEntry where
  disease : String
  autoantibody : String
  autoantigen : String
  epitope : String
  uniprotId : String
  createdAt : Option Date
  lastUpdated : Option Date
  verified : Bool
  deriving DecidableEq

/-- The CSV cell values of one record: the five text fields verbatim,
dates rendered `YYYY-MM-DD`, `Verified` rendered `Yes`/`No`. -/
def cellValues (e : ExportEntry) : List String :=
  [e.disease, e.autoantibody, e.autoantigen, e.epitope, e.uniprotId,
   renderDateCell e.createdAt, renderDateCell e.lastUpdated,
   if e.verified then "Yes" else "No"]

/-- The row the exporter emits: the five text fields through
`escapeCSV`, the date and verified cells raw (as in the source). -/
def rowCells (e : ExportEntry) : List String :=
  [escapeCSV e.disease, escapeCSV e.autoantibody, escapeCSV e.autoantigen,
   escapeCSV e.epitope, escapeCSV e.uniprotId,
   renderDateCell e.createdAt, renderDateCell e.lastUpdated,
   if e.verified then "Yes" else "No"]

/-- `Array.prototype.join` with a one-character separator. -/
def joinSep (sep : Char) : List String → String
  | [] => ""
  | [x] => x
  | x :: y :: t => x ++ ⟨[sep]⟩ ++ joinSep sep (y :: t)

/-- The header cells of the export. -/
def headerCells : List String :=
  ["Disease", "Autoantibody", "Autoantigen", "Epitope", "UniProt ID",
   "Date Added", "Last Updated", "Verified"]

/-- `headers.join(',')`. -/
def headerLine : String := joinSep ',' headerCells

/-- `convertToCSV` on a present entry list: empty output for an empty
list, otherwise the header row followed by one row per entry, joined
with newlines. -/
def convertToCSV (entries : List ExportEntry) : String :=
  if entries = [] then ""
  else joinSep '\n' (headerLine :: entries.map (fun e => joinSep ',' (rowCells e)))

/-- `convertToCSV` including the falsy (absent list) guard. -/
def convertToCSVOpt (entries : Option (List ExportEntry)) : String :=
  match entries with
  | none => ""
  | some es => convertToCSV es

/-- A standard CSV reader as a character machine.  `inQ` is the
inside-quotes state, `fld` the current field (reversed), `row` the
current row (reversed), `rows` the finished rows (reversed).  Doubled
quotes inside a quoted field read back as one literal quote; a bare
quote inside a non-empty unquoted field is rejected. -/
def parseCSVAux (cs : List Char) (inQ : Bool) (fld : List Char)
    (row : List String) (rows : List (List String)) :
    Option (List (List String)) :=
  match cs with
  | [] =>
    if inQ then none
    else some (((⟨fld.reverse⟩ :: row).reverse :: rows).reverse)
  | c :: rest =>
    if inQ then
      if c = '"' then
        match rest with
        | [] => parseCSVAux [] false fld row rows
        | d :: rest2 =>
          if d = '"' then parseCSVAux rest2 true ('"' :: fld) row rows
          else parseCSVAux (d :: rest2) false fld row rows
      else parseCSVAux rest true (c :: fld) row rows
    else
      if c = ',' then parseCSVAux rest false [] (⟨fld.reverse⟩ :: row) rows
      else if c = '\n' then
        parseCSVAux rest false [] [] ((⟨fld.reverse⟩ :: row).reverse :: rows)
      else if c = '"' then
        if fld = [] then parseCSVAux rest true [] row rows else none
      else parseCSVAux rest false (c :: fld) row rows
  termination_by cs.length
  decreasing_by all_goals simp_wf <;> omega

/-- Parse a CSV document into rows of field values. -/
def parseCSV (s : String) : Option (List (List String)) :=
  parseCSVAux s.data false [] [] []

theorem str_len_pos_of_ne_empty (s : String) (h : s ≠ "") : 1 ≤ s.length := by
  cases s with
  | mk l =>
    cases l with
    | nil => exact absurd rfl h
    | cons c t => simp [String.length]

/-- C1: `buildCombinedQuery` combines its clauses exactly by count —
zero clauses give the match-all predicate, a single clause is returned
verbatim with no wrapping conjunction, and two or more clauses give the
conjunction of all of them, in which the free-text disjunction (when
the search is active with `field = 'all'`) appears as one single
conjunction operand, never flattened into the structured filter
clauses. -/
theorem buildCombinedQuery_combines_by_count (fs : FilterSet) :
    (allConditions fs = [] → buildCombinedQuery fs = Predicate.matchAll) ∧
    (∀ c, allConditions fs = [c] → buildCombinedQuery fs = c) ∧
    (∀ c cs, allConditions fs = c :: cs → cs ≠ [] →
      buildCombinedQuery fs = Predicate.allOf (allConditions fs)) ∧
    (∀ s, fs.search = some s → s ≠ "" → trimStr s ≠ "" → fs.field = some "all" →
      Predicate.anyOf (searchableFields.map (fun f => regexClause f s)) ∈
        allConditions fs) := by
  refine ⟨?_, ?_, ?_, ?_⟩
  · intro h; simp [buildCombinedQuery, h]
  · intro c h; simp [buildCombinedQuery, h]
  · intro c cs h hne
    unfold buildCombinedQuery
    rw [h]
    cases cs with
    | nil => exact absurd rfl hne
    | cons d ds => rfl
  · intro s hs hne htrim hall
    have hsc : searchConditions fs =
        [Predicate.anyOf (searchableFields.map (fun f => regexClause f s))] := by
      simp [searchConditions, hs, hne, htrim, hall]
    simp [allConditions, hsc]

/-- C10: converting an empty (or absent) record list to CSV yields the
empty string with no header row; the header row appears exactly when at
least one record is exported. -/
theorem convertToCSV_empty_no_header :
    convertToCSV [] = "" ∧ convertToCSVOpt Option.none = "" ∧
    ∀ (e : ExportEntry) (es : List ExportEntry), ∃ rest : String,
      convertToCSV (e :: es) = headerLine ++ rest := by
  refine ⟨rfl, rfl, ?_⟩
  intro e es
  refine ⟨⟨['\n']⟩ ++ joinSep '\n' ((e :: es).map (fun x => joinSep ',' (rowCells x))), ?_⟩
  simp only [convertToCSV, if_neg (List.cons_ne_nil e es), List.map_cons]
  rw [joinSep, String.append_assoc]

/-- C7: a ranked-search request whose term is missing or shorter than 2
characters after trimming is rejected with the minimum-length
validation error and produces no results; a term of trimmed length at
least 2 always passes validation and the pipeline runs. -/
theorem advancedSearch_term_validation :
    (∀ limit records,
      advancedSearchRun Option.none limit records = .error advErrMsg) ∧
    (∀ s limit records, (trimStr s).length < 2 →
      advancedSearchRun (some s) limit records = .error advErrMsg) ∧
    (∀ s limit records, 2 ≤ (trimStr s).length →
      advancedSearchRun (some s) limit records =
        .ok (advancedSearchPipeline (trimStr s) records limit)) := by
  refine ⟨fun _ _ => rfl, ?_, ?_⟩
  · intro s limit records h
    simp [advancedSearchRun, h]
  · intro s limit records h
    have hs : ¬ s = "" := by
      intro he
      rw [he] at h
      have : trimStr "" = "" := rfl
      rw [this] at h
      simp [String.length] at h
    have hlt : ¬ (trimStr s).length < 2 := by omega
    simp [advancedSearchRun, hs, hlt]

/-- C8 counterexample: a non-blank free-text term together with the
invalid field name `"bogus"` is not rejected — `searchEntries` succeeds
and executes the match-all query, the free-text clause having been
silently dropped by `buildCombinedQuery`. -/
theorem searchEntries_invalid_field_dropped :
    searchEntriesModel (some "lupus") (some "bogus") =
      Except.ok Predicate.matchAll := by
  rfl

/-- C8 amended: for every non-blank free-text term and every field name
outside `all|disease|autoantibody|autoantigen|epitope|uniprotId`, no
validation error is raised; the free-text clause is silently dropped
and (with no structured filters) the executed query is the match-all
predicate. -/
theorem searchEntries_invalid_field_amended (s f : String)
    (hs : trimStr s ≠ "")
    (hf : f ∉ ["all", "disease", "autoantibody", "autoantigen", "epitope", "uniprotId"]) :
    searchEntriesModel (some s) (some f) = Except.ok Predicate.matchAll := by
  have hs0 : ¬ s = "" := by
    intro he; apply hs; rw [he]; rfl
  have hlen : ¬ (trimStr s).length < 1 := by
    have := str_len_pos_of_ne_empty _ hs
    omega
  have hall : ¬ (some f = some "all") := by
    intro h; injection h with h; exact hf (by rw [h]; simp)
  have hsf : f ∉ searchableFields := by
    intro h
    apply hf
    simp only [searchableFields, List.mem_cons, List.not_mem_nil, or_false] at h
    rcases h with h | h | h | h | h <;> simp [h]
  have hac : allConditions
      { search := some s, field := some (f), disease := Option.none,
        autoantibody := Option.none, autoantigen := Option.none,
        epitope := Option.none } = [] := by
    simp [allConditions, searchConditions, filterConditions, truthyTrim, hall, hsf]
  simp [searchEntriesModel, hs0, hlen, buildCombinedQuery, hac]

/-- C8 witness: the amended statement applied at the concrete term
`"lupus"` and field `"bogus"`. -/
theorem searchEntries_invalid_field_amended_witness :
    searchEntriesModel (some "lupus") (some "bogus") =
      Except.ok Predicate.matchAll :=
  searchEntries_invalid_field_amended "lupus" "bogus" (by decide) (by decide)

/-- C3 counterexample: a requested limit of 0 is not raised to 1 — the
effective limit stays 0, and the storage layer rejects the resulting
non-positive `$limit` stage, so a ranked search over a matching record
errors out instead of returning one result. -/
theorem advancedSearch_limit_zero_rejected :
    effectiveLimit (some 0) = 0 ∧ effectiveLimit (some 0) ≠ 1 ∧
    advancedSearchAgg (some "lupus") (some 0)
      [{ disease := "lupus", autoantibody := "a", autoantigen := "b",
         epitope := Option.none, uniprotId := Option.none }] =
      Except.error limitErrMsg := by
  exact ⟨rfl, by decide, rfl⟩

/-- C3 amended: the ranked-search result size limit defaults to 50 when
absent and is capped above at 100, but has no lower clamp — a requested
limit of 0 or a negative limit keeps its non-positive effective value
`min(limit, 100)` rather than being raised to 1, the storage layer then
rejects the `$limit` stage so the request never succeeds (no result
list is produced), and every successful response holds at most the
effective limit `min(requestedLimit, 100)` results. -/
theorem advancedSearch_limit_cap_amended2 :
    effectiveLimit Option.none = 50 ∧
    (∀ l : Int, effectiveLimit (some l) = min l 100) ∧
    (∀ (s : String) (records : List Record) (l : Int), l ≤ 0 →
      ∀ out, advancedSearchAgg (some s) (some l) records ≠ Except.ok out) ∧
    (∀ (q : Option String) (limit : Option Int) (records : List Record)
      (out : List (Record × Nat)),
      advancedSearchAgg q limit records = Except.ok out →
        out.length ≤ (effectiveLimit limit).toNat) := by
  refine ⟨rfl, fun l => rfl, ?_, ?_⟩
  · intro s records l hl out hok
    unfold advancedSearchAgg limitStage at hok
    split at hok
    · simp at hok
    · split at hok
      · simp at hok
      · have heff : effectiveLimit (some l) ≤ 0 := by
          unfold effectiveLimit
          simp only [Option.getD_some]
          exact le_trans (min_le_left l 100) hl
        rw [if_pos heff] at hok
        simp at hok
  · intro q limit records out hok
    unfold advancedSearchAgg limitStage at hok
    split at hok
    · simp at hok
    · split at hok
      · simp at hok
      · split at hok
        · simp at hok
        · have h := Except.ok.inj hok
          rw [← h]
          exact List.length_take_le _ _

/-- C4: the code contradicts the claim's blank handling — a
whitespace-only `disease` constraint on an `epitope` facet request is
treated as given (JavaScript truthiness without trimming), so the
empty-set guard is skipped and the built constraint, whose pattern
trims to the empty string, matches every record: a match-everything
wildcard instead of the empty set.  With all three constraints truly
absent the empty-set shortcut does fire. -/
theorem epitope_facet_whitespace_bug :
    getFilteredUniqueValuesModel "epitope" (some " ") Option.none Option.none =
      FacetOutcome.enumerate [("disease", " ")] ∧
    (∀ r : Record, constraintMatches r ("disease", " ") = true) ∧
    getFilteredUniqueValuesModel "epitope" Option.none Option.none Option.none =
      FacetOutcome.emptyShortcut := by
  refine ⟨rfl, ?_, rfl⟩
  intro r
  have h0 : trimStr " " = "" := rfl
  have h1 : (lowerStr "").data = [] := rfl
  unfold constraintMatches constraintFieldValue containsCI
  rw [h0]
  simp only [h1]
  simp [containsSub_nil]

/-- C5: the sanitizer escapes every regex metacharacter with a
preceding backslash, the escaped result read as a case-insensitive
regex fragment matches exactly the literal occurrences of the raw
string, and `"C1q (complement)"` sanitizes to `"C1q \(complement\)"`
and still matches the literal record value. -/
theorem sanitizer_escape_literal_match :
    (∀ c : Char, isMeta c = true → escapeRegex ⟨[c]⟩ = ⟨['\\', c]⟩) ∧
    (∀ s : String, parseLiteral (escapeRegex s).data = some s.data) ∧
    (∀ s hay : String, regexMatchesCI (escapeRegex s) hay = containsCI hay s) ∧
    escapeRegex "C1q (complement)" = "C1q \\(complement\\)" ∧
    regexMatchesCI (escapeRegex "C1q (complement)") "C1q (complement)" = true := by
  have hparse : ∀ s : String, parseLiteral (escapeRegex s).data = some s.data :=
    fun s => parseLiteral_escape s.data
  refine ⟨?_, hparse, ?_, by rfl, by rfl⟩
  · intro c h
    simp [escapeRegex, escChar, h]
  · intro s hay
    unfold regexMatchesCI
    rw [hparse s]

/-- C6 counterexample: two distinct raw stored values `" A"` and `"A"`
that become equal only after trimming both survive `distinct` and both
trim to `"A"`, so the enumerated value list contains a duplicate. -/
theorem facet_duplicate_after_trim :
    ([" A", "A"] : List String).Nodup ∧
    facetEnumerate [" A", "A"] = ["A", "A"] ∧
    ¬ (facetEnumerate [" A", "A"]).Nodup := by
  refine ⟨by decide, by rfl, by decide⟩

/-- C6 amended: every facet enumeration discards blank values, trims
every value, and sorts with the locale base-sensitivity comparator; but
de-duplication happens on the raw stored values (via `distinct`) before
trimming, so the output is duplicate-free only when no two distinct raw
values trim to the same string. -/
theorem facet_postprocess_amended (raw : List String) :
    (∀ v ∈ facetEnumerate raw, v ≠ "" ∧ trimStr v = v) ∧
    List.Sorted baseRel (facetEnumerate raw) ∧
    ((∀ a ∈ raw, ∀ b ∈ raw, trimStr a = trimStr b → a = b) →
      (facetEnumerate raw).Nodup) := by
  refine ⟨?_, ?_, ?_⟩
  · intro v hv
    have hv' : v ∈ (raw.dedup.filter (fun x => x ≠ "" && trimStr x ≠ "")).map trimStr := by
      have hperm := List.perm_insertionSort baseRel
        ((raw.dedup.filter (fun x => x ≠ "" && trimStr x ≠ "")).map trimStr)
      exact hperm.mem_iff.mp hv
    obtain ⟨w, hw, hvw⟩ := List.mem_map.mp hv'
    have hwp := List.of_mem_filter hw
    have hwt : trimStr w ≠ "" := by
      simp only [Bool.and_eq_true, decide_eq_true_eq] at hwp
      exact hwp.2
    subst hvw
    exact ⟨hwt, trimStr_idem w⟩
  · exact List.sorted_insertionSort baseRel _
  · intro hinj
    have h1 : raw.dedup.Nodup := List.nodup_dedup raw
    have h2 : (raw.dedup.filter (fun x => x ≠ "" && trimStr x ≠ "")).Nodup :=
      h1.filter _
    have h3 : ((raw.dedup.filter (fun x => x ≠ "" && trimStr x ≠ "")).map trimStr).Nodup := by
      refine h2.map_on ?_
      intro x hx y hy hxy
      have hxr : x ∈ raw := (List.mem_dedup).mp (List.mem_of_mem_filter hx)
      have hyr : y ∈ raw := (List.mem_dedup).mp (List.mem_of_mem_filter hy)
      exact hinj x hxr y hyr hxy
    exact (List.perm_insertionSort baseRel
      ((raw.dedup.filter (fun x => x ≠ "" && trimStr x ≠ "")).map trimStr)).nodup_iff.mpr h3

/-- A pair of sample records for the ranking witness. -/
def sampleRecords : List Record :=
  [{ disease := "Systemic lupus erythematosus", autoantibody := "Anti-dsDNA",
     autoantigen := "dsDNA", epitope := Option.none, uniprotId := Option.none },
   { disease := "Arthritis", autoantibody := "Anti-Lupus",
     autoantigen := "x", epitope := Option.none, uniprotId := Option.none }]

theorem relevanceScore_ge_two_of_candidate {t : String} {r : Record}
    (h : candidateMatch t r = true) : 2 ≤ relevanceScore t r := by
  unfold candidateMatch at h
  unfold relevanceScore
  simp only [Bool.or_eq_true] at h
  rcases h with ((((h | h) | h) | h) | h)
  · simp only [h, if_true]; omega
  · simp only [h, if_true]; omega
  · simp only [h, if_true]; omega
  · unfold optFieldMatches at h
    rcases he : r.epitope with _ | e
    · rw [he] at h; simp at h
    · rw [he] at h
      have h' : containsCI e t = true := h
      simp only [Option.getD_some, h', if_true]
      omega
  · unfold optFieldMatches at h
    rcases hu : r.uniprotId with _ | u
    · rw [hu] at h; simp at h
    · rw [hu] at h
      have h' : containsCI u t = true := h
      simp only [Option.getD_some, h', if_true]
      omega

/-- C2: for a search term of trimmed length at least 2, the ranked
search pairs every returned record with exactly the weighted relevance
score of §4.3 (disease 10, autoantibody 8, autoantigen 6, epitope 4,
uniprotId 2, absent optional fields as the empty string), every
returned score is at least 2 (the candidate set is pre-filtered to the
five-field disjunction), and the result is sorted by descending score
with ties broken by ascending disease name. -/
theorem rankedSearch_scores_and_order (term : String)
    (_ht : 2 ≤ (trimStr term).length) (records : List Record)
    (limit : Option Int) :
    (∀ p ∈ advancedSearchPipeline (trimStr term) records limit,
       p.2 = relevanceScore (trimStr term) p.1 ∧ 2 ≤ p.2) ∧
    List.Sorted rankRel (advancedSearchPipeline (trimStr term) records limit) := by
  constructor
  · intro p hp
    have hp1 : p ∈ List.insertionSort rankRel
        ((records.filter (candidateMatch (trimStr term))).map
          (fun r => (r, relevanceScore (trimStr term) r))) :=
      List.take_subset _ _ hp
    have hp2 : p ∈ (records.filter (candidateMatch (trimStr term))).map
        (fun r => (r, relevanceScore (trimStr term) r)) :=
      (List.perm_insertionSort rankRel _).mem_iff.mp hp1
    obtain ⟨r, hr, hpr⟩ := List.mem_map.mp hp2
    have hcand : candidateMatch (trimStr term) r = true := List.of_mem_filter hr
    subst hpr
    exact ⟨rfl, relevanceScore_ge_two_of_candidate hcand⟩
  · exact (List.sorted_insertionSort rankRel _).sublist (List.take_sublist _ _)

/-- C2 witness: the ranking statement applied to the term `"lupus"`
over two concrete records. -/
theorem rankedSearch_scores_and_order_witness :
    (∀ p ∈ advancedSearchPipeline (trimStr "lupus") sampleRecords (some 50),
       p.2 = relevanceScore (trimStr "lupus") p.1 ∧ 2 ≤ p.2) ∧
    List.Sorted rankRel (advancedSearchPipeline (trimStr "lupus") sampleRecords (some 50)) :=
  rankedSearch_scores_and_order "lupus" (by decide) sampleRecords (some 50)

theorem str_data_append (a b : String) : (a ++ b).data = a.data ++ b.data := by
  cases a; cases b; rfl

theorem str_mk_data (s : String) : String.mk s.data = s := rfl

theorem pA_end (fld : List Char) (row : List String) (rows : List (List String)) :
    parseCSVAux [] false fld row rows =
      some (((String.mk fld.reverse :: row).reverse :: rows).reverse) := by
  rw [parseCSVAux.eq_def]; simp

theorem pA_comma (rest : List Char) (fld : List Char) (row : List String)
    (rows : List (List String)) :
    parseCSVAux (',' :: rest) false fld row rows =
      parseCSVAux rest false [] (String.mk fld.reverse :: row) rows := by
  rw [parseCSVAux.eq_def]; simp

theorem pA_newline (rest : List Char) (fld : List Char) (row : List String)
    (rows : List (List String)) :
    parseCSVAux ('\n' :: rest) false fld row rows =
      parseCSVAux rest false [] []
        ((String.mk fld.reverse :: row).reverse :: rows) := by
  rw [parseCSVAux.eq_def]; simp

theorem pA_openq (rest : List Char) (row : List String)
    (rows : List (List String)) :
    parseCSVAux ('"' :: rest) false [] row rows =
      parseCSVAux rest true [] row rows := by
  rw [parseCSVAux.eq_def]; simp

theorem pA_plain {c : Char} (hc1 : c ≠ ',') (hc2 : c ≠ '\n') (hc3 : c ≠ '"')
    (rest : List Char) (fld : List Char) (row : List String)
    (rows : List (List String)) :
    parseCSVAux (c :: rest) false fld row rows =
      parseCSVAux rest false (c :: fld) row rows := by
  rw [parseCSVAux.eq_def]; simp [hc1, hc2, hc3]

theorem pA_qlit (rest : List Char) (fld : List Char) (row : List String)
    (rows : List (List String)) :
    parseCSVAux ('"' :: '"' :: rest) true fld row rows =
      parseCSVAux rest true ('"' :: fld) row rows := by
  rw [parseCSVAux.eq_def]; simp

theorem pA_qclose {rest : List Char} (hrest : rest.head? ≠ some '"')
    (fld : List Char) (row : List String) (rows : List (List String)) :
    parseCSVAux ('"' :: rest) true fld row rows =
      parseCSVAux rest false fld row rows := by
  rw [parseCSVAux.eq_def]
  cases rest with
  | nil => simp
  | cons d rest2 =>
    have hd : d ≠ '"' := by
      intro h; exact hrest (by rw [h]; rfl)
    simp [hd]

theorem pA_qchar {c : Char} (hc : c ≠ '"') (rest : List Char) (fld : List Char)
    (row : List String) (rows : List (List String)) :
    parseCSVAux (c :: rest) true fld row rows =
      parseCSVAux rest true (c :: fld) row rows := by
  rw [parseCSVAux.eq_def]
  simp [hc]

theorem consumeUnquoted (l : List Char) (hsafe : ∀ c ∈ l, csvSpecial c = false) :
    ∀ (rest : List Char) (fld : List Char) (row : List String)
      (rows : List (List String)),
      parseCSVAux (l ++ rest) false fld row rows =
        parseCSVAux rest false (l.reverse ++ fld) row rows := by
  induction l with
  | nil => intro rest fld row rows; simp
  | cons c t ih =>
    intro rest fld row rows
    have hc := hsafe c (List.mem_cons_self c t)
    have hc1 : c ≠ ',' := by intro h; rw [h] at hc; simp [csvSpecial] at hc
    have hc2 : c ≠ '\n' := by intro h; rw [h] at hc; simp [csvSpecial] at hc
    have hc3 : c ≠ '"' := by intro h; rw [h] at hc; simp [csvSpecial] at hc
    have ht : ∀ x ∈ t, csvSpecial x = false :=
      fun x hx => hsafe x (List.mem_cons_of_mem c hx)
    rw [List.cons_append, pA_plain hc1 hc2 hc3, ih ht]
    simp

theorem consumeQuoted (l : List Char) :
    ∀ (rest : List Char) (fld : List Char) (row : List String)
      (rows : List (List String)),
      parseCSVAux (doubleQuotes l ++ rest) true fld row rows =
        parseCSVAux rest true (l.reverse ++ fld) row rows := by
  induction l with
  | nil => intro rest fld row rows; simp [doubleQuotes]
  | cons c t ih =>
    intro rest fld row rows
    by_cases hc : c = '"'
    · subst hc
      have hdq : doubleQuotes ('"' :: t) = '"' :: '"' :: doubleQuotes t := by
        simp [doubleQuotes]
      rw [hdq, List.cons_append, List.cons_append, pA_qlit, ih]
      simp
    · have hdq : doubleQuotes (c :: t) = c :: doubleQuotes t := by
        simp [doubleQuotes, hc]
      rw [hdq, List.cons_append, pA_qchar hc, ih]
      simp

/-- A produced CSV cell `g` faithfully represents a value `v`: either it
is the `escapeCSV` encoding of `v`, or it is `v` itself and `v` contains
no comma, quote or newline (the cells the exporter emits unescaped). -/
def fieldRep (g v : String) : Prop :=
  g = escapeCSV v ∨ (g = v ∧ ∀ c ∈ v.data, csvSpecial c = false)

theorem not_needsQuoting_safe {v : String} (h : ¬ needsQuoting v = true) :
    ∀ c ∈ v.data, csvSpecial c = false := by
  intro c hc
  unfold needsQuoting at h
  simp only [Bool.or_eq_true, List.any_eq_true, decide_eq_true_eq, not_or] at h
  obtain ⟨⟨h1, h2⟩, h3⟩ := h
  unfold csvSpecial
  have e1 : ¬ c = ',' := fun hh => h1 ⟨c, hc, hh⟩
  have e2 : ¬ c = '"' := fun hh => h2 ⟨c, hc, hh⟩
  have e3 : ¬ c = '\n' := fun hh => h3 ⟨c, hc, hh⟩
  simp [e1, e2, e3]

theorem consumeField (g v : String) (hrep : fieldRep g v) (rest : List Char)
    (hrest : rest.head? ≠ some '"') (row : List String)
    (rows : List (List String)) :
    parseCSVAux (g.data ++ rest) false [] row rows =
      parseCSVAux rest false v.data.reverse row rows := by
  rcases hrep with h | ⟨h, hsafe⟩
  · subst h
    unfold escapeCSV
    by_cases h0 : v = ""
    · subst h0
      simp
    · by_cases hq : needsQuoting v
      · rw [if_neg h0, if_pos hq]
        have hdata : (String.mk ('"' :: (doubleQuotes v.data ++ ['"']))).data =
            '"' :: (doubleQuotes v.data ++ ['"']) := rfl
        rw [hdata, List.cons_append, pA_openq, List.append_assoc,
          List.singleton_append, consumeQuoted, pA_qclose hrest]
        simp
      · rw [if_neg h0, if_neg hq]
        rw [consumeUnquoted v.data (not_needsQuoting_safe hq)]
        simp
  · subst h
    rw [consumeUnquoted _ hsafe]
    simp

theorem consumeLineEnd : ∀ (gs vs : List String) (row : List String)
    (rows : List (List String)), List.Forall₂ fieldRep gs vs → gs ≠ [] →
    parseCSVAux (joinSep ',' gs).data false [] row rows =
      some (((row.reverse ++ vs) :: rows).reverse) := by
  intro gs
  induction gs with
  | nil => intro vs row rows _ hne; exact absurd rfl hne
  | cons g gs' ih =>
    intro vs row rows hf _
    rcases hf with _ | ⟨hg, hf'⟩
    rename_i v vs'
    cases gs' with
    | nil =>
      cases hf'
      have hj : joinSep ',' [g] = g := rfl
      have hc := consumeField g v hg [] (by simp) row rows
      rw [List.append_nil] at hc
      rw [hj, hc, pA_end]
      simp [str_mk_data]
    | cons g2 t2 =>
      have hj : joinSep ',' (g :: g2 :: t2) =
          g ++ String.mk [','] ++ joinSep ',' (g2 :: t2) := rfl
      rw [hj, str_data_append, str_data_append, List.append_assoc]
      have hdata : (String.mk [',']).data ++ (joinSep ',' (g2 :: t2)).data =
          ',' :: (joinSep ',' (g2 :: t2)).data := rfl
      rw [hdata, consumeField g v hg _ (by simp) row rows, pA_comma,
        List.reverse_reverse, str_mk_data]
      rw [ih vs' (v :: row) rows hf' (by simp)]
      simp

theorem consumeLineNewline : ∀ (gs vs : List String) (row : List String)
    (rows : List (List String)) (rest : List Char),
    List.Forall₂ fieldRep gs vs → gs ≠ [] →
    parseCSVAux ((joinSep ',' gs).data ++ '\n' :: rest) false [] row rows =
      parseCSVAux rest false [] [] (((row.reverse ++ vs)) :: rows) := by
  intro gs
  induction gs with
  | nil => intro vs row rows rest _ hne; exact absurd rfl hne
  | cons g gs' ih =>
    intro vs row rows rest hf _
    rcases hf with _ | ⟨hg, hf'⟩
    rename_i v vs'
    cases gs' with
    | nil =>
      cases hf'
      have hj : joinSep ',' [g] = g := rfl
      rw [hj, consumeField g v hg _ (by simp) row rows, pA_newline,
        List.reverse_reverse, str_mk_data]
      simp
    | cons g2 t2 =>
      have hj : joinSep ',' (g :: g2 :: t2) =
          g ++ String.mk [','] ++ joinSep ',' (g2 :: t2) := rfl
      rw [hj, str_data_append, str_data_append, List.append_assoc,
        List.append_assoc]
      have hdata : (String.mk [',']).data ++
          ((joinSep ',' (g2 :: t2)).data ++ '\n' :: rest) =
          ',' :: ((joinSep ',' (g2 :: t2)).data ++ '\n' :: rest) := rfl
      rw [hdata, consumeField g v hg _ (by simp) row rows, pA_comma,
        List.reverse_reverse, str_mk_data]
      rw [ih vs' (v :: row) rows rest hf' (by simp)]
      simp

/-- A produced CSV line faithfully represents a row of values. -/
def lineRep (l : String) (vs : List String) : Prop :=
  ∃ gs : List String, l = joinSep ',' gs ∧ gs ≠ [] ∧ List.Forall₂ fieldRep gs vs

theorem consumeRows : ∀ (ls : List String) (vss : List (List String))
    (rows : List (List String)), List.Forall₂ lineRep ls vss → ls ≠ [] →
    parseCSVAux (joinSep '\n' ls).data false [] [] rows =
      some ((vss.reverse ++ rows).reverse) := by
  intro ls
  induction ls with
  | nil => intro vss rows _ hne; exact absurd rfl hne
  | cons l ls' ih =>
    intro vss rows hf _
    rcases hf with _ | ⟨hl, hf'⟩
    rename_i vs vss'
    obtain ⟨gs, hgs, hgne, hgf⟩ := hl
    cases ls' with
    | nil =>
      cases hf'
      have hj : joinSep '\n' [l] = l := rfl
      rw [hj, hgs, consumeLineEnd gs vs [] rows hgf hgne]
      simp
    | cons l2 t2 =>
      have hj : joinSep '\n' (l :: l2 :: t2) =
          l ++ String.mk ['\n'] ++ joinSep '\n' (l2 :: t2) := rfl
      rw [hj, str_data_append, str_data_append, List.append_assoc]
      have hdata : (String.mk ['\n']).data ++ (joinSep '\n' (l2 :: t2)).data =
          '\n' :: (joinSep '\n' (l2 :: t2)).data := rfl
      rw [hdata, hgs, consumeLineNewline gs vs [] rows _ hgf hgne]
      simp only [List.reverse_nil, List.nil_append]
      rw [ih vss' (vs :: rows) hf' (by simp)]
      simp

theorem digitChar10_safe (n : Nat) : csvSpecial (digitChar10 n) = false := by
  unfold digitChar10
  split <;> rfl

theorem padNatChars_safe (w n : Nat) :
    ∀ c ∈ padNatChars w n, csvSpecial c = false := by
  intro c hc
  unfold padNatChars at hc
  obtain ⟨i, _, hi⟩ := List.mem_map.mp hc
  rw [← hi]
  exact digitChar10_safe _

theorem renderDateCell_safe (o : Option Date) :
    ∀ c ∈ (renderDateCell o).data, csvSpecial c = false := by
  intro c hc
  cases o with
  | none => simp [renderDateCell] at hc
  | some d =>
    have hdata : (renderDateCell (some d)).data =
        padNatChars 4 d.year ++ '-' ::
          (padNatChars 2 d.month ++ '-' :: padNatChars 2 d.day) := rfl
    rw [hdata] at hc
    rcases List.mem_append.mp hc with h | h
    · exact padNatChars_safe _ _ c h
    · rcases List.mem_cons.mp h with h | h
      · rw [h]; rfl
      · rcases List.mem_append.mp h with h | h
        · exact padNatChars_safe _ _ c h
        · rcases List.mem_cons.mp h with h | h
          · rw [h]; rfl
          · exact padNatChars_safe _ _ c h

theorem yesNo_safe (b : Bool) :
    ∀ c ∈ (if b then "Yes" else "No" : String).data, csvSpecial c = false := by
  cases b <;> decide

theorem rowCells_rep (e : ExportEntry) :
    List.Forall₂ fieldRep (rowCells e) (cellValues e) := by
  unfold rowCells cellValues
  refine .cons (Or.inl rfl) (.cons (Or.inl rfl) (.cons (Or.inl rfl)
    (.cons (Or.inl rfl) (.cons (Or.inl rfl) (.cons ?_ (.cons ?_ (.cons ?_ .nil)))))))
  · exact Or.inr ⟨rfl, renderDateCell_safe e.createdAt⟩
  · exact Or.inr ⟨rfl, renderDateCell_safe e.lastUpdated⟩
  · exact Or.inr ⟨rfl, yesNo_safe e.verified⟩

theorem headerLine_rep : lineRep headerLine headerCells := by
  refine ⟨headerCells, rfl, by simp [headerCells], ?_⟩
  unfold headerCells
  refine .cons ?_ (.cons ?_ (.cons ?_ (.cons ?_ (.cons ?_ (.cons ?_
    (.cons ?_ (.cons ?_ .nil))))))) <;>
    exact Or.inr ⟨rfl, by decide⟩

theorem lines_rep (es : List ExportEntry) :
    List.Forall₂ lineRep (es.map (fun e => joinSep ',' (rowCells e)))
      (es.map cellValues) := by
  induction es with
  | nil => exact .nil
  | cons e t ih =>
    refine .cons ⟨rowCells e, rfl, by simp [rowCells], rowCells_rep e⟩ ih

/-- C9: exporting any non-empty list of records to CSV and re-parsing
the output with standard CSV rules yields the header row followed by
exactly one data row per record, whose field values are identical to
the exported records' values (dates at the exported day granularity,
`Verified` as `Yes`/`No`). -/
theorem convertToCSV_roundTrip (es : List ExportEntry) (hne : es ≠ []) :
    parseCSV (convertToCSV es) = some (headerCells :: es.map cellValues) ∧
    (es.map cellValues).length = es.length := by
  refine ⟨?_, by simp⟩
  unfold parseCSV convertToCSV
  rw [if_neg hne]
  rw [consumeRows (headerLine :: es.map (fun e => joinSep ',' (rowCells e)))
    (headerCells :: es.map cellValues) [] (.cons headerLine_rep (lines_rep es))
    (by simp)]
  simp

/-- A concrete export list exercising quoting: a comma, a double quote,
an empty field, an absent date, and both `Verified` renderings. -/
def sampleEntries : List ExportEntry :=
  [{ disease := "a,b", autoantibody := "q\"x", autoantigen := "plain",
     epitope := "", uniprotId := "P12345",
     createdAt := some { year := 2023, month := 5, day := 7 },
     lastUpdated := Option.none, verified := true },
   { disease := "lupus", autoantibody := "ab", autoantigen := "line\nbreak",
     epitope := "e", uniprotId := "Multiple",
     createdAt := Option.none,
     lastUpdated := some { year := 2024, month := 11, day := 30 },
     verified := false }]

/-- C9 witness: the round trip applied to the two concrete sample
records. -/
theorem convertToCSV_roundTrip_witness :
    parseCSV (convertToCSV sampleEntries) =
      some (headerCells :: sampleEntries.map cellValues) ∧
    (sampleEntries.map cellValues).length = sampleEntries.length :=
  convertToCSV_roundTrip sampleEntries (by decide)

end BackendDB
